import Mathlib

/-!
Verification development for the mexce runtime expression compiler
(single-header C++ library, file mexce.h).

The definitions below are a shallow embedding of the compilation pipeline:
the lexer state machine, the shunting-yard postfix transformation, the
token-to-element conversion, argument linking, the two peephole optimizers
(pow_optimizer and asmd_optimizer), the constant-folding pass, the code
emitter's FPU-depth accounting, and the evaluator facade
(bind / unbind / assign_expression / evaluate).

Numeric values are modeled as rationals.  The x87 FPU evaluation stack is a
list of rationals and catalog byte templates are given their arithmetic
denotations (transcendental templates, whose exact values no claim depends
on, are mapped to 0 with a comment at their definition).
-/

namespace Mexce

/-- Numeric_data_type from mexce.h: the five supported operand kinds. -/
inductive Kind where
  | m16int
  | m32int
  | m64int
  | m32fp
  | m64fp
deriving DecidableEq, Repr

/-- Element_type tags (CCONST, CVAR, CFUNC) as in the source enum. -/
def CCONST : Nat := 0

def CVAR : Nat := 1

def CFUNC : Nat := 2

/-- A memory operand embedded into optimized code: the address of a bound
variable (identified by name; its value comes from the environment at
evaluation time) or of a constant object (whose stored value is fixed). -/
inductive Addr where
  | avar (name : String)
  | aconst (v : ℚ)
deriving DecidableEq, Repr

/-- The x87 instructions used by the pow_optimizer's synthesized chains,
named after the byte pairs in the source. -/
inductive FpuOp where
  | fld_st0     -- d9 c0 : fld st(0)
  | fmul_st0    -- dc c8 : fmul st(0), st(0)
  | fmulp       -- de c9 : fmulp st(1), st(0)
  | fmul_st0_st1  -- d8 c9 : fmul st(0), st(1)
  | fstp_st0    -- dd d8 : fstp st(0)
  | fld1        -- d9 e8 : fld1
  | fdivrp      -- de f1 : fdivrp st(1), st(0)
deriving DecidableEq, Repr

/-- Semantics of one FPU op on the stack (head is st(0)). -/
def fpuStep : FpuOp → List ℚ → List ℚ
  | .fld_st0, x :: s => x :: x :: s
  | .fmul_st0, x :: s => (x * x) :: s
  | .fmulp, x :: y :: s => (y * x) :: s
  | .fmul_st0_st1, x :: y :: s => (x * y) :: y :: s
  | .fstp_st0, _ :: s => s
  | .fld1, s => 1 :: s
  | .fdivrp, x :: y :: s => (x / y) :: s
  | _, s => s   -- stack underflow: unreachable for code emitted by the library

/-- Run a chain of FPU ops left to right. -/
def runFpu : List FpuOp → List ℚ → List ℚ
  | [], s => s
  | op :: ops, s => runFpu ops (fpuStep op s)

/-- The code carried by a Function node: a catalog byte template (referenced
by its catalog name), a pow_optimizer multiplication chain, or an
asmd_optimizer load-and-operate instruction.  For the latter, the source
switch emits a (prefix, opcode) byte pair for kinds M16INT, M32INT, M32FP
and M64FP, and emits no instruction at all for M64INT (there is no case for
it); this is modeled by an Option that is none exactly when no instruction
bytes were produced. -/
inductive FCode where
  | template (name : String)
  | chain (ops : List FpuOp)
  | fold (instr : Option (Nat × Nat)) (addr : Addr)
deriving DecidableEq, Repr

/-- Which peephole optimizer a catalog entry registers. -/
inductive OptTag where
  | noopt
  | powopt
  | asmd (op0 op1 : Nat)
deriving DecidableEq, Repr

/-- Function element: mirrors struct Function (name, num_args, stack_req,
code bytes, optimizer, var_ref flag, linked argument iterators).  Argument
links are element ids into the linear element list. -/
structure Func where
  name : String
  num_args : Nat
  stack_req : Nat
  code : FCode
  opt : OptTag
  var_ref : Bool
  args : List Nat
deriving DecidableEq, Repr

/-- Element: a constant (literal or named constant; always M64FP in the
source), a bound variable, or a function node. -/
inductive Elem where
  | econst (v : ℚ) (name : String)
  | evar (name : String) (kind : Kind)
  | efunc (f : Func)
deriving DecidableEq, Repr

/-- element_type of an element, as in the source hierarchy. -/
def Elem.etype : Elem → Nat
  | .econst _ _ => CCONST
  | .evar _ _ => CVAR
  | .efunc _ => CFUNC

/-- The element list: elements paired with stable ids (modeling the
iterator stability of the std list used by the source). -/
abbrev EList := List (Nat × Elem)

/-- Find an element by id. -/
def findElem (l : EList) (i : Nat) : Option Elem :=
  match l.find? (fun p => p.1 = i) with
  | some p => some p.2
  | none => none

/-- Erase the element with the given id. -/
def eraseElem (l : EList) (i : Nat) : EList :=
  l.filter (fun p => p.1 ≠ i)

/-- The catalog (make_function_map): name, arity, extra FPU slots required
by the template, registered optimizer.  Entries transcribed from the
Function constructors in the source. -/
def catalog : List (String × Nat × Nat × OptTag) :=
  [ ("sin", 1, 0, .noopt), ("cos", 1, 0, .noopt), ("tan", 1, 1, .noopt),
    ("abs", 1, 0, .noopt), ("sign", 1, 1, .noopt), ("signp", 1, 2, .noopt),
    ("expn", 1, 1, .noopt), ("sfc", 1, 1, .noopt), ("sqrt", 1, 0, .noopt),
    ("pow", 2, 1, .powopt), ("exp", 1, 1, .noopt), ("less_than", 2, 0, .noopt),
    ("log", 1, 1, .noopt), ("log2", 1, 0, .noopt), ("ln", 1, 1, .noopt),
    ("log10", 1, 1, .noopt), ("ylog2", 2, 0, .noopt), ("max", 2, 0, .noopt),
    ("min", 2, 0, .noopt), ("floor", 1, 0, .noopt), ("ceil", 1, 0, .noopt),
    ("round", 1, 0, .noopt), ("int", 1, 0, .noopt), ("mod", 2, 0, .noopt),
    ("bnd", 2, 2, .noopt), ("add", 2, 0, .asmd 0x00 0x00),
    ("sub", 2, 0, .asmd 0x20 0x28), ("neg", 1, 0, .noopt),
    ("mul", 2, 0, .asmd 0x08 0x08), ("div", 2, 0, .asmd 0x30 0x38),
    ("bias", 2, 1, .noopt), ("gain", 2, 1, .noopt) ]

/-- Lookup an entry of the function map by name. -/
def catalogFind (s : String) : Option (Nat × Nat × OptTag) :=
  match catalog.find? (fun p => p.1 = s) with
  | some p => some p.2
  | none => none

/-- Arity of a catalog operation (function_map lookup used by the parser). -/
def functionArity (s : String) : Option Nat :=
  match catalogFind s with
  | some (n, _, _) => some n
  | none => none

/-- make_function: build a fresh Function node for a catalog name (dummy
node for unknown names, which stage 1 has already excluded). -/
def makeFunction (s : String) : Func :=
  match catalogFind s with
  | some (n, sreq, opt) => ⟨s, n, sreq, .template s, opt, false, []⟩
  | none => ⟨s, 1, 0, .template s, .noopt, false, []⟩

/-- Digits of a string interpreted as a natural number (empty gives 0),
used to model atof on the token shapes the lexer accepts. -/
def digitsVal : List Char → Nat
  | [] => 0
  | c :: cs => (digitsVal cs) + c.toNat.sub ('0'.toNat) * 10 ^ cs.length

/-- Model of atof on lexer-accepted literal tokens: an optional integer
part, an optional dot, an optional fractional part.  atof on a lone dot
yields 0, matching the C library behavior the source relies on. -/
def parseLit (s : String) : ℚ :=
  let cs := s.data
  let ip := cs.takeWhile (fun c => c ≠ '.')
  let fp := (cs.dropWhile (fun c => c ≠ '.')).drop 1
  (digitsVal ip : ℚ) + (digitsVal fp : ℚ) / (10 : ℚ) ^ fp.length

/-- Round as the C round function used by pow_optimizer: ties away from
zero. -/
def cround (v : ℚ) : ℚ :=
  if v < 0 then -(⌊(-v) + 1/2⌋ : ℤ) else (⌊v + 1/2⌋ : ℤ)

/-- Truncated remainder, the denotation of the x87 fprem instruction on
exact inputs (b rem a, rounding the quotient toward zero). -/
def qrem (b a : ℚ) : ℚ :=
  if a = 0 then b else b - a * ((b / a).num / (b / a).den : ℤ)

/-- Denotation of the generic pow byte template on the inputs the claims
exercise: an integer exponent raises the base to that power (the template's
fast path and its fyl2x-based slow path agree there); non-integer exponents
go through transcendental instructions which are not modeled (mapped to 0;
no claim depends on them).  A zero base short-circuits to zero in the
template. -/
def powSem (b e : ℚ) : ℚ :=
  if b = 0 then 0 else if e.den = 1 then b ^ e.num else 0

/-- Denotations of the catalog byte templates.  The argument list is the
popped FPU stack prefix, head first (so for a binary operation applied to
an expression "x op y", the list is [y, x]).  Transcendental templates
(sin, cos, tan, exp, ln, log, log2, log10, ylog2, sqrt, sfc, expn) are not
modeled numerically and map to 0: no claim depends on their values. -/
def catalogSem : String → List ℚ → ℚ
  | "add", [a, b] => b + a
  | "sub", [a, b] => b - a
  | "mul", [a, b] => b * a
  | "div", [a, b] => b / a
  | "neg", [a] => -a
  | "pow", [a, b] => powSem b a
  | "abs", [a] => |a|
  | "min", [a, b] => if a < b then a else b
  | "max", [a, b] => if a < b then b else a
  | "less_than", [a, b] => if b ≤ a then 1 else 0
  | "sign", [a] => if 0 < a then 1 else -1
  | "signp", [a] => if 0 < a then 1 else 0
  | "floor", [a] => (⌊a⌋ : ℤ)
  | "ceil", [a] => (⌈a⌉ : ℤ)
  | "round", [a] => (round a : ℤ)   -- frndint, ties modeled half-up
  | "int", [a] => (round a : ℤ)     -- frndint, ties modeled half-up
  | "mod", [a, b] => qrem b a
  | "bias", [a, b] => b / ((1/a - 2) * (1 - b) + 1)
  | "gain", [a, b] =>
      if 2 * b ≤ 1 then b / ((1/a - 2) * (1 - 2*b) + 1)
      else ((1/a - 2) * (1 - 2*b) - b) / ((1/a - 2) * (1 - 2*b) - 1)
  | "bnd", [a, b] => if 0 < qrem b a then qrem b a else qrem b a + a
  | _, _ => 0

/-- The fmul chain the pow_optimizer emits for each special-cased exponent
value, transcribed from the if-else ladder in the source (which compares
the signed value v_d, so only the nonnegative values listed there match).
Returns none for all other values, where the source returns the original
function node unchanged. -/
def chainOps (v : ℚ) : Option (List FpuOp) :=
  if v = 0 then some [.fstp_st0, .fld1]
  else if v = 1 then some []
  else if v = 2 then some [.fmul_st0]
  else if v = 3 then some [.fld_st0, .fmul_st0, .fmulp]
  else if v = 4 then some [.fmul_st0, .fmul_st0]
  else if v = 5 then some [.fld_st0, .fmul_st0, .fmul_st0, .fmulp]
  else if v = 6 then some [.fld_st0, .fmul_st0, .fmul_st0, .fmul_st0_st1, .fmulp]
  else if v = 7 then some [.fld_st0, .fmul_st0, .fmul_st0, .fmul_st0_st1, .fmul_st0_st1, .fmulp]
  else if v = 8 then some [.fmul_st0, .fmul_st0, .fmul_st0]
  else if v = 16 then some [.fmul_st0, .fmul_st0, .fmul_st0, .fmul_st0]
  else if v = 32 then some [.fmul_st0, .fmul_st0, .fmul_st0, .fmul_st0, .fmul_st0]
  else none

/-- pow_optimizer: if the first linked argument (the exponent, linked last
in postfix order) is a constant whose value equals its round and has
absolute value at most 32, and the value is one of the special-cased chain
values, replace the call with a synthesized single-input chain function and
erase the exponent leaf from the element list.  The source also appends an
inversion (fld1; fdivrp) when a_d < 0, but a_d is the absolute value of the
exponent, so that append never fires; it is kept verbatim here. -/
def powOptimizer (f : Func) (elist : EList) : Func × EList :=
  match f.args with
  | [a0, a1] =>
    match findElem elist a0 with
    | some (.econst v _) =>
      if cround v = v ∧ |v| ≤ 32 then
        match chainOps v with
        | some ops =>
          let ops := if |v| < 0 then ops ++ [.fld1, .fdivrp] else ops
          (⟨"", 1, 0, .chain ops, .noopt, false, [a1]⟩, eraseElem elist a0)
        | none => (f, elist)
      else (f, elist)
    | _ => (f, elist)
  | _ => (f, elist)

/-- The load-and-operate instruction bytes emitted by asmd_optimizer for a
memory operand of the given kind: the prefix byte selects the operand
width/type and the opcode byte selects the operation (and, for sub/div, the
operand-side variant).  The source switch has no case for M64INT, so no
instruction is emitted for that kind. -/
def asmdInstr (k : Kind) (opcode : Nat) : Option (Nat × Nat) :=
  match k with
  | .m16int => some (0xde, opcode)
  | .m32int => some (0xda, opcode)
  | .m32fp => some (0xd8, opcode)
  | .m64fp => some (0xdc, opcode)
  | .m64int => none

/-- asmd_optimizer, templated over the two opcode variants OP0 and OP1:
for the first argument (i = 0, then i = 1) that is a constant or a
variable, synthesize a single-input function whose code loads the memory
operand directly into the arithmetic instruction, link it to the other
argument, mark var_ref when the folded operand is a variable, and erase the
folded leaf from the element list.  Constants are always M64FP in the
source (struct Constant stores a double). -/
def asmdOptimizer (op0 op1 : Nat) (f : Func) (elist : EList) : Func × EList :=
  match f.args with
  | [a0, a1] =>
    match findElem elist a0 with
    | some (.econst v _) =>
        (⟨"", 1, 0, .fold (asmdInstr .m64fp op0) (.aconst v), .noopt, false, [a1]⟩,
         eraseElem elist a0)
    | some (.evar nm k) =>
        (⟨"", 1, 0, .fold (asmdInstr k op0) (.avar nm), .noopt, true, [a1]⟩,
         eraseElem elist a0)
    | _ =>
      match findElem elist a1 with
      | some (.econst v _) =>
          (⟨"", 1, 0, .fold (asmdInstr .m64fp op1) (.aconst v), .noopt, false, [a0]⟩,
           eraseElem elist a1)
      | some (.evar nm k) =>
          (⟨"", 1, 0, .fold (asmdInstr k op1) (.avar nm), .noopt, true, [a0]⟩,
           eraseElem elist a1)
      | _ => (f, elist)
  | _ => (f, elist)

/-- Dispatch a function node's registered optimizer, as the optimizer pass
in assign_expression does. -/
def runOptimizer (f : Func) (elist : EList) : Func × EList :=
  match f.opt with
  | .noopt => (f, elist)
  | .powopt => powOptimizer f elist
  | .asmd op0 op1 => asmdOptimizer op0 op1 f elist

/-! Token types, with the numeric values of the source enum Token_type:
the parser stores the enum value in both the type and (initially) the
priority field of a token. -/

def UNDEFINED_TOKEN_TYPE : Nat := 0

def NUMERIC_LITERAL : Nat := 1

def CONSTANT_NAME : Nat := 2

def VARIABLE_NAME : Nat := 3

def FUNCTION_NAME : Nat := 4

def INFIX_1 : Nat := 5

def INFIX_2 : Nat := 6

def INFIX_3 : Nat := 7

def INFIX_4 : Nat := 8

def RIGHT_PARENTHESIS : Nat := 9

def LEFT_PARENTHESIS : Nat := 10

def COMMA : Nat := 11

def FUNCTION_RIGHT_PARENTHESIS : Nat := 12

def FUNCTION_LEFT_PARENTHESIS : Nat := 13

def UNARY : Nat := 14

/-- Token, as in the source: type, priority (initialized to the type by
the char constructor), byte position, content. -/
structure Token where
  type : Nat
  priority : Nat
  position : Nat
  content : String
deriving DecidableEq, Repr

/-- The Token(type, position, char) constructor: priority is set to the
type value. -/
def mkToken (t : Nat) (pos : Nat) (c : Char) : Token :=
  ⟨t, t, pos, String.mk [c]⟩

/-- Append a character to the token being scanned. -/
def appendC (t : Token) (c : Char) : Token :=
  { t with content := t.content.push c }

/-- Change a token's resolved type (the source assigns temp.type only, so
the priority field keeps its constructor value). -/
def setType (t : Token) (ty : Nat) : Token :=
  { t with type := ty }

/-- Character class predicates from the source. -/
def isOperatorC (c : Char) : Bool :=
  c = '+' || c = '-' || c = '*' || c = '/' || c = '^' || c = '<'

def isAlphabeticC (c : Char) : Bool :=
  ('A' ≤ c && c ≤ 'Z') || ('a' ≤ c && c ≤ 'z') || c = '_'

def isNumericC (c : Char) : Bool :=
  '0' ≤ c && c ≤ '9'

/-- get_infix_rank: the priority class of an infix operator character. -/
def getInfixRank (c : Char) : Nat :=
  if c = '<' then INFIX_4
  else if c = '+' || c = '-' then INFIX_3
  else if c = '*' || c = '/' then INFIX_2
  else if c = '^' then INFIX_1
  else UNDEFINED_TOKEN_TYPE

/-- operator_to_function_name for binary infix operators. -/
def opToName (s : String) : String :=
  if s = "+" then "add"
  else if s = "-" then "sub"
  else if s = "*" then "mul"
  else if s = "/" then "div"
  else if s = "^" then "pow"
  else if s = "<" then "less_than"
  else ""

/-- Parse errors carry a message and a byte position, as
mexce_parsing_exception does. -/
abbrev Perr := String × Nat

/-- Error message for an unexpected character. -/
def notExpected (c : Char) : String :=
  "\"" ++ String.mk [c] ++ "\" not expected"

/-- Increment the first component of the innermost bracket-depth record
(bdarray.back().first++). -/
def bumpFirst (bd : List (Int × Int)) : List (Int × Int) :=
  match bd with
  | [] => []
  | b :: t => (b.1 + 1, b.2) :: t

/-- Close-parenthesis handling shared by lexer states 2, 3 and 5 (the
source repeats this block with identical conditions in each case). -/
def closeParen (i : Nat) (tokens : List Token) (bd : List (Int × Int)) (fp : Int) :
    Except Perr (List Token × List (Int × Int) × Int) :=
  let b := bd.headD (0, 0)
  if b.1 > 0 then
    .ok (tokens ++ [mkToken RIGHT_PARENTHESIS i ')'], (b.1 - 1, b.2) :: bd.tail, fp)
  else if fp > 0 then
    if b.2 ≠ 1 then .error ("Expected more arguments", i)
    else .ok (tokens ++ [mkToken FUNCTION_RIGHT_PARENTHESIS i ')'], bd.tail, fp - 1)
  else .error ("\")\" not expected", i)

/-- Comma handling shared by lexer states 2, 3 and 5.  The source message
contains an apostrophe which is elided here. -/
def commaTok (i : Nat) (tokens : List Token) (bd : List (Int × Int)) (fp : Int) :
    Except Perr (List Token × List (Int × Int) × Int) :=
  let b := bd.headD (0, 0)
  if b.1 ≠ 0 then .error ("Expected a \")\"", i)
  else if b.2 < 2 then .error ("Dont expect any arguments here", i)
  else .ok (tokens ++ [mkToken COMMA i ','], (b.1, b.2 - 1) :: bd.tail, fp)

/-- Stage 1 of assign_expression: the lexer state machine.  Transcribed
case by case from the source switch, including its fallthroughs (state 0
falls into state 4, state 1 into state 2).  Parameters vars and consts are
the names of the bound variables and named constants; bd models bdarray
(head is the vector's back) and fp models function_parentheses.  Positions
where the source would read past the ends of its containers (possible only
after states the claims do not exercise, e.g. a leading top-level close
parenthesis, which is undefined behavior in the source) are made total
with default values. -/
def scan (vars consts : List String) :
    List Char → Nat → Nat → Token → List Token → List (Int × Int) → Int →
    Except Perr (List Token)
  | [], i, state, _, tokens, bd, fp =>
    if (bd.headD (0, 0)).1 > 0 || fp > 0 then .error ("Expected a \")\"", i - 1)
    else if state ≠ 5 then .error ("Unexpected end of expression", i - 1)
    else .ok tokens
  | c :: cs, i, state, temp, tokens, bd, fp =>
    if state = 0 && (c = '-' || c = '+') then
      scan vars consts cs (i + 1) 4 temp (tokens ++ [mkToken UNARY i c]) bd fp
    else if state = 0 && c = ')' then
      let b := bd.headD (0, 0)
      if b.1 ≠ 0 then .error ("Expected an expression", i)
      else if b.2 ≠ 0 then .error ("Expected more arguments", i)
      else
        scan vars consts cs (i + 1) 5 temp
          (tokens ++ [mkToken FUNCTION_RIGHT_PARENTHESIS i ')']) bd.tail (fp - 1)
    else if state = 0 || state = 4 then
      -- state 4 body, also reached by fallthrough from state 0; a space
      -- leaves the state unchanged
      if c = ' ' then scan vars consts cs (i + 1) state temp tokens bd fp
      else if isNumericC c then
        scan vars consts cs (i + 1) 1 (mkToken NUMERIC_LITERAL i c) tokens bd fp
      else if c = '.' then
        scan vars consts cs (i + 1) 2 (mkToken NUMERIC_LITERAL i c) tokens bd fp
      else if isAlphabeticC c then
        scan vars consts cs (i + 1) 3 (mkToken 0 i c) tokens bd fp
      else if c = '-' || c = '+' then
        scan vars consts cs (i + 1) 4 temp (tokens ++ [mkToken UNARY i c]) bd fp
      else if c = '(' then
        scan vars consts cs (i + 1) 0 temp
          (tokens ++ [mkToken LEFT_PARENTHESIS i '(']) (bumpFirst bd) fp
      else .error (notExpected c, i)
    else if state = 1 && c = '.' then
      scan vars consts cs (i + 1) 2 (appendC temp c) tokens bd fp
    else if state = 1 || state = 2 then
      -- state 2 body, also reached by fallthrough from state 1
      if isNumericC c then
        scan vars consts cs (i + 1) state (appendC temp c) tokens bd fp
      else if c = ' ' then
        scan vars consts cs (i + 1) 5 temp (tokens ++ [temp]) bd fp
      else if c = ')' then
        match closeParen i (tokens ++ [temp]) bd fp with
        | .error err => .error err
        | .ok (tk, bd', fp') => scan vars consts cs (i + 1) 5 temp tk bd' fp'
      else if isOperatorC c then
        scan vars consts cs (i + 1) 4 temp
          (tokens ++ [temp, mkToken (getInfixRank c) i c]) bd fp
      else if c = ',' then
        match commaTok i (tokens ++ [temp]) bd fp with
        | .error err => .error err
        | .ok (tk, bd', fp') => scan vars consts cs (i + 1) 0 temp tk bd' fp'
      else .error (notExpected c, i)
    else if state = 3 then
      if isAlphabeticC c || isNumericC c then
        scan vars consts cs (i + 1) 3 (appendC temp c) tokens bd fp
      else if c = ' ' then
        if vars.contains temp.content then
          scan vars consts cs (i + 1) 5 temp (tokens ++ [setType temp VARIABLE_NAME]) bd fp
        else if consts.contains temp.content then
          scan vars consts cs (i + 1) 5 temp (tokens ++ [setType temp CONSTANT_NAME]) bd fp
        else
          match functionArity temp.content with
          | some n =>
            scan vars consts cs (i + 1) 6 temp
              (tokens ++ [setType temp FUNCTION_NAME, mkToken FUNCTION_LEFT_PARENTHESIS i '('])
              ((0, (n : Int)) :: bd) (fp + 1)
          | none =>
            .error (temp.content ++ " is not a known constant, variable or function name", i)
      else if c = ')' then
        if vars.contains temp.content || consts.contains temp.content then
          let temp' := setType temp
            (if vars.contains temp.content then VARIABLE_NAME else CONSTANT_NAME)
          match closeParen i (tokens ++ [temp']) bd fp with
          | .error err => .error err
          | .ok (tk, bd', fp') => scan vars consts cs (i + 1) 5 temp' tk bd' fp'
        else .error (temp.content ++ " is not a known constant or variable name", i)
      else if c = '(' then
        match functionArity temp.content with
        | none => .error (temp.content ++ " is not a known function name", i)
        | some n =>
          scan vars consts cs (i + 1) 0 temp
            (tokens ++ [setType temp FUNCTION_NAME, mkToken FUNCTION_LEFT_PARENTHESIS i '('])
            ((0, (n : Int)) :: bd) (fp + 1)
      else if isOperatorC c then
        if vars.contains temp.content || consts.contains temp.content then
          let temp' := setType temp
            (if vars.contains temp.content then VARIABLE_NAME else CONSTANT_NAME)
          scan vars consts cs (i + 1) 4 temp'
            (tokens ++ [temp', mkToken (getInfixRank c) i c]) bd fp
        else .error (temp.content ++ " is not a known constant or variable name", i)
      else if c = ',' then
        if vars.contains temp.content || consts.contains temp.content then
          let temp' := setType temp
            (if vars.contains temp.content then VARIABLE_NAME else CONSTANT_NAME)
          match commaTok i (tokens ++ [temp']) bd fp with
          | .error err => .error err
          | .ok (tk, bd', fp') => scan vars consts cs (i + 1) 0 temp' tk bd' fp'
        else .error (temp.content ++ " is not a known constant or variable name", i)
      else .error (notExpected c, i)
    else if state = 5 then
      if c = ' ' then scan vars consts cs (i + 1) 5 temp tokens bd fp
      else if isOperatorC c then
        scan vars consts cs (i + 1) 4 temp (tokens ++ [mkToken (getInfixRank c) i c]) bd fp
      else if c = ')' then
        match closeParen i tokens bd fp with
        | .error err => .error err
        | .ok (tk, bd', fp') => scan vars consts cs (i + 1) 5 temp tk bd' fp'
      else if c = ',' then
        match commaTok i tokens bd fp with
        | .error err => .error err
        | .ok (tk, bd', fp') => scan vars consts cs (i + 1) 0 temp tk bd' fp'
      else .error (notExpected c, i)
    else if state = 6 then
      if c = '(' then scan vars consts cs (i + 1) 0 temp tokens bd fp
      else .error ("Expected a \"(\"", i)
    else .error ("internal error", i)

/-- Stage 2 inner loop for an incoming infix operator of class ty
(INFIX_2, INFIX_3 or INFIX_4): move stack tokens to the postfix stream
while the stack top's priority p satisfies INFIX_1 ≤ p ≤ ty.  Returns the
remaining stack and the extended postfix stream. -/
def shuntPopOps (ty : Nat) : List Token → List Token → List Token × List Token
  | [], post => ([], post)
  | t :: ts, post =>
    if t.priority < INFIX_1 || ty < t.priority then (t :: ts, post)
    else shuntPopOps ty ts (post ++ [t])

/-- Stage 2 handling of a right parenthesis: move stack tokens to postfix
until the left parenthesis, which is itself also moved to postfix (and is
later ignored by stage 3).  None when the stack has no left parenthesis,
which stage 1 excludes. -/
def popToLeftParen : List Token → List Token → Option (List Token × List Token)
  | [], _ => none
  | t :: ts, post =>
    if t.type = LEFT_PARENTHESIS then some (ts, post ++ [t])
    else popToLeftParen ts (post ++ [t])

/-- Stage 2 handling of a function right parenthesis: a do-while loop that
moves at least one stack token to postfix and stops once the token just
moved is the function name. -/
def popFunc : List Token → List Token → Option (List Token × List Token)
  | [], _ => none
  | t :: ts, post =>
    if t.type = FUNCTION_NAME then some (ts, post ++ [t])
    else popFunc ts (post ++ [t])

/-- Stage 2 handling of a comma: move stack tokens to postfix up to (not
including) the function name. -/
def popComma : List Token → List Token → Option (List Token × List Token)
  | [], _ => none
  | t :: ts, post =>
    if t.type = FUNCTION_NAME then some (t :: ts, post)
    else popComma ts (post ++ [t])

/-- The priority assigned to a unary operator token when it is pushed: the
tightest (power) priority exactly when the operator stack is nonempty and
its top has INFIX_1 priority, and the additive priority otherwise. -/
def unaryPriority (tstack : List Token) : Nat :=
  match tstack with
  | [] => INFIX_3
  | s :: _ => if s.priority = INFIX_1 then INFIX_1 else INFIX_3

/-- Stage 2 of assign_expression: the shunting-yard transformation from
the token sequence to a postfix stream.  The operator stack has its top at
the head.  Pops from an empty stack are undefined behavior in the source
(excluded by stage 1) and are mapped to the internal error. -/
def shunt : List Token → List Token → List Token → Except Perr (List Token)
  | [], tstack, post => .ok (post ++ tstack)
  | t :: rest, tstack, post =>
    if t.type = INFIX_4 || t.type = INFIX_3 || t.type = INFIX_2 then
      let (ts', post') := shuntPopOps t.type tstack post
      shunt rest (t :: ts') post'
    else if t.type = INFIX_1 || t.type = LEFT_PARENTHESIS || t.type = FUNCTION_NAME then
      shunt rest (t :: tstack) post
    else if t.type = UNARY then
      shunt rest ({ t with priority := unaryPriority tstack } :: tstack) post
    else if t.type = NUMERIC_LITERAL || t.type = CONSTANT_NAME || t.type = VARIABLE_NAME then
      shunt rest tstack (post ++ [t])
    else if t.type = RIGHT_PARENTHESIS then
      match popToLeftParen tstack post with
      | some (ts', post') => shunt rest ts' post'
      | none => .error ("internal error", 0)
    else if t.type = FUNCTION_RIGHT_PARENTHESIS then
      match popFunc tstack post with
      | some (ts', post') => shunt rest ts' post'
      | none => .error ("internal error", 0)
    else if t.type = COMMA then
      match popComma tstack post with
      | some (ts', post') => shunt rest ts' post'
      | none => .error ("internal error", 0)
    else if t.type = FUNCTION_LEFT_PARENTHESIS then
      shunt rest tstack post
    else .error ("internal error", 0)

/-- Per-variable data held by the evaluator: the numeric kind, the
referenced flag, and the element_type tag (always CVAR; the source guards
on it in unbind). -/
structure VarInfo where
  kind : Kind
  referenced : Bool
  etype : Nat
deriving DecidableEq, Repr

/-- Association-list lookup for the std maps of the evaluator. -/
def lookupA {α : Type} (l : List (String × α)) (s : String) : Option α :=
  match l.find? (fun p => p.1 = s) with
  | some p => some p.2
  | none => none

/-- Set the referenced flag of a variable. -/
def setRef (l : List (String × VarInfo)) (s : String) : List (String × VarInfo) :=
  l.map (fun p => if p.1 = s then (p.1, { p.2 with referenced := true }) else p)

/-- Stage 3 of assign_expression: convert the postfix token stream to an
element list, allocating ids in order, resolving names, and setting the
referenced flag of every variable that occurs.  Tokens with no matching
case in the source switch (parenthesis remnants of stage 2, unary plus)
produce no element.  Literal deduplication by source text shares one
constant object in the source; the shared object's value is the same, so
the map itself is not modeled. -/
def elemsOf (consts : List (String × ℚ)) :
    List Token → List (String × VarInfo) → Nat → EList →
    EList × List (String × VarInfo) × Nat
  | [], vars, fresh, acc => (acc, vars, fresh)
  | t :: rest, vars, fresh, acc =>
    if t.type = INFIX_4 || t.type = INFIX_3 || t.type = INFIX_2 || t.type = INFIX_1 then
      elemsOf consts rest vars (fresh + 1)
        (acc ++ [(fresh, .efunc (makeFunction (opToName t.content)))])
    else if t.type = FUNCTION_NAME then
      elemsOf consts rest vars (fresh + 1)
        (acc ++ [(fresh, .efunc (makeFunction t.content))])
    else if t.type = UNARY then
      if t.content = "-" then
        elemsOf consts rest vars (fresh + 1) (acc ++ [(fresh, .efunc (makeFunction "neg"))])
      else
        elemsOf consts rest vars fresh acc   -- unary plus is ignored
    else if t.type = NUMERIC_LITERAL then
      elemsOf consts rest vars (fresh + 1)
        (acc ++ [(fresh, .econst (parseLit t.content) t.content)])
    else if t.type = CONSTANT_NAME then
      match lookupA consts t.content with
      | some v =>
        elemsOf consts rest vars (fresh + 1) (acc ++ [(fresh, .econst v t.content)])
      | none => elemsOf consts rest vars fresh acc   -- unreachable: validated in stage 1
    else if t.type = VARIABLE_NAME then
      match lookupA vars t.content with
      | some info =>
        elemsOf consts rest (setRef vars t.content) (fresh + 1)
          (acc ++ [(fresh, .evar t.content info.kind)])
      | none => elemsOf consts rest vars fresh acc   -- unreachable: validated in stage 1
    else
      elemsOf consts rest vars fresh acc

/-- Link each function element to its arguments: a working stack of
element ids (head is the most recent) from which each function pops
num_args ids, args[0] being the most recently pushed, and then pushes its
own id. -/
def linkArgs : EList → List Nat → EList
  | [], _ => []
  | (id, .efunc f) :: rest, evec =>
    (id, .efunc { f with args := evec.take f.num_args }) ::
      linkArgs rest (id :: evec.drop f.num_args)
  | (id, e) :: rest, evec => (id, e) :: linkArgs rest (id :: evec)

/-- The optimizer pass: walk the element list in order and, for every
function element with a registered optimizer, replace it with the
optimizer's result; the optimizer may erase an (earlier) argument leaf
from the list.  The processed prefix is carried in order. -/
def optPass : EList → EList → EList
  | done, [] => done
  | done, (id, .efunc f) :: rest =>
    (match f.opt with
     | .noopt => optPass (done ++ [(id, .efunc f)]) rest
     | _ =>
       let (f', done') := runOptimizer f done
       optPass (done' ++ [(id, .efunc f')]) rest)
  | done, (id, e) :: rest => optPass (done ++ [(id, e)]) rest

/-- The semantics of a load-and-operate instruction synthesized by
asmd_optimizer, determined by its opcode byte: st(0) is combined with the
memory operand m (fiadd/fimul/fisub/fisubr/fidiv/fidivr and the
corresponding fadd/fmul/fsub/fsubr/fdiv/fdivr forms). -/
def foldApply (opcode : Nat) (x m : ℚ) : ℚ :=
  if opcode = 0x00 then x + m
  else if opcode = 0x08 then x * m
  else if opcode = 0x20 then x - m
  else if opcode = 0x28 then m - x
  else if opcode = 0x30 then x / m
  else if opcode = 0x38 then m / x
  else x

/-- Value of a memory operand under an environment assigning values to the
bound variables' storage. -/
def memVal (env : String → ℚ) : Addr → ℚ
  | .avar n => env n
  | .aconst v => v

/-- Apply one function element to the FPU stack. -/
def applyFunc (env : String → ℚ) (f : Func) (s : List ℚ) : List ℚ :=
  match f.code with
  | .template nm => catalogSem nm (s.take f.num_args) :: s.drop f.num_args
  | .chain ops => runFpu ops s
  | .fold instr addr =>
    match s with
    | x :: s' =>
      (match instr with
       | none => x    -- M64INT: no instruction bytes were emitted, so the operand is dropped
       | some (_, opcode) => foldApply opcode x (memVal env addr)) :: s'
    | [] => []

/-- Run the compiled element list as the emitted code does: every leaf
pushes its current memory value on the FPU stack, every function applies
its code to the stack. -/
def evalNodes (env : String → ℚ) : EList → List ℚ → List ℚ
  | [], s => s
  | (_, .econst v _) :: rest, s => evalNodes env rest (v :: s)
  | (_, .evar nm _) :: rest, s => evalNodes env rest (env nm :: s)
  | (_, .efunc f) :: rest, s => evalNodes env rest (applyFunc env f s)

/-- All elements of a list slice are constants. -/
def allConst (l : EList) : Bool :=
  l.all (fun p => p.2.etype = CCONST)

/-- The constant-folding pass: walk the element list; for every function
element without a direct variable reference whose num_args immediate
predecessors are all constants, compile and run that slice in isolation
and replace it by a synthetic constant; folding continues past the new
constant so results fold transitively.  The processed prefix is carried in
reverse (head is the element just before the current one).  The source
walks backwards over list iterators, so the existence of num_args
predecessors is a precondition (made an explicit guard here). -/
def foldPass : EList → EList → Nat → EList
  | rdone, [], _ => rdone.reverse
  | rdone, (id, .efunc f) :: rest, fresh =>
    if f.var_ref then foldPass ((id, .efunc f) :: rdone) rest fresh
    else if f.num_args ≤ rdone.length && allConst (rdone.take f.num_args) then
      let slice := (rdone.take f.num_args).reverse ++ [(id, .efunc f)]
      let v := (evalNodes (fun _ => 0) slice []).headD 0
      foldPass ((fresh, .econst v "") :: rdone.drop f.num_args) rest (fresh + 1)
    else foldPass ((id, .efunc f) :: rdone) rest fresh
  | rdone, (id, e) :: rest, fresh => foldPass ((id, e) :: rdone) rest fresh

/-! The code emitter (compile_elist). -/

/-- One emitted unit of machine code: a leaf load instruction (the opcode
chosen by the operand kind, the absolute address embedded), a function's
template bytes copied verbatim, or the return sequence. -/
inductive EmitSlot where
  | load (kind : Kind) (addr : Addr)
  | codeBytes (c : FCode)
  | epilogue
deriving DecidableEq, Repr

/-- The emitter loop of compile_elist: walks the element list emitting a
load per leaf and the code bytes per function, while tracking
fpu_stack_size (a size_t, so its arithmetic wraps modulo 2 to the 64).
The source increments the counter per leaf inside the check
(++fpu_stack_size > 8) whose body is empty because the throw statement in
it is commented out, so no error is ever signaled; the counter decreases
by num_args minus 1 per function and the stack_req field is never added.
Returns the emitted slots and the final counter. -/
def emitLoop : EList → Nat → List EmitSlot → List EmitSlot × Nat
  | [], fpu, acc => (acc, fpu)
  | (_, .econst v _) :: rest, fpu, acc =>
    -- (++fpu_stack_size > 8) : empty branch body, throw commented out
    emitLoop rest ((fpu + 1) % 2 ^ 64) (acc ++ [.load .m64fp (.aconst v)])
  | (_, .evar nm k) :: rest, fpu, acc =>
    -- (++fpu_stack_size > 8) : empty branch body, throw commented out
    emitLoop rest ((fpu + 1) % 2 ^ 64) (acc ++ [.load k (.avar nm)])
  | (_, .efunc f) :: rest, fpu, acc =>
    emitLoop rest ((fpu + (2 ^ 64 - (f.num_args - 1))) % 2 ^ 64) (acc ++ [.codeBytes f.code])

/-- compile_elist at the instruction level: the emitted loads and
templates followed by the return sequence, together with the final FPU
counter.  There is no error outcome: the emitter emits code for every
element list. -/
def compileEmit (l : EList) : List EmitSlot × Nat :=
  let (slots, fpu) := emitLoop l 0 []
  (slots ++ [.epilogue], fpu)

/-- Modelled from the spec for comparison with the emitter (claim C6):
the claimed emitter computes a running FPU-stack depth of +1 per leaf and
minus (arity - 1) plus extra_fpu_slots per call, and signals an internal
error instead of emitting code whenever the depth would exceed the
architectural maximum of 8. -/
def compileEmitClaim (l : EList) : Except String (List EmitSlot) :=
  let rec go : EList → Int → List EmitSlot → Except String (List EmitSlot)
    | [], _, acc => .ok (acc ++ [.epilogue])
    | (_, .econst v _) :: rest, d, acc =>
      if d + 1 > 8 then .error "FPU stack limit exceeded (internal error)"
      else go rest (d + 1) (acc ++ [.load .m64fp (.aconst v)])
    | (_, .evar nm k) :: rest, d, acc =>
      if d + 1 > 8 then .error "FPU stack limit exceeded (internal error)"
      else go rest (d + 1) (acc ++ [.load k (.avar nm)])
    | (_, .efunc f) :: rest, d, acc =>
      let d' := d - ((f.num_args : Int) - 1) + (f.stack_req : Int)
      if d' > 8 then .error "FPU stack limit exceeded (internal error)"
      else go rest d' (acc ++ [.codeBytes f.code])
  go l 0 []

/-! The evaluator facade. -/

/-- The evaluator's state: the named constants (pi and e), the bound
variables with their referenced flags, and the element list whose emitted
code the evaluate function pointer currently runs.  The per-compilation
literal cache and intermediate-constant store are internal allocation
details with no observable effect and are not modeled. -/
structure EvState where
  constants : List (String × ℚ)
  vmap : List (String × VarInfo)
  program : EList
deriving Repr

/-- The installed code's result under an environment giving each bound
variable's current memory value: run the element list on an empty FPU
stack and return st(0). -/
def evaluate (st : EvState) (env : String → ℚ) : ℚ :=
  (evalNodes env st.program []).headD 0

/-- Reset the referenced flag of every binding, as the loop at the start
of assign_expression does. -/
def resetRefs (l : List (String × VarInfo)) : List (String × VarInfo) :=
  l.map (fun p => (p.1, { p.2 with referenced := false }))

/-- The pipeline stages of assign_expression after the flag reset: stage 1
on the text with a space appended, stage 2, stage 3, argument linking, the
optimizer pass, the constant-folding pass, and installation of the
compiled element list.  On a stage error the exception leaves the state as
mutated so far and the program untouched. -/
def assignStages (st1 : EvState) (e : String) : EvState × Except Perr Unit :=
  match scan (st1.vmap.map (fun p => p.1)) (st1.constants.map (fun p => p.1))
      (e.data ++ [' ']) 0 0 ⟨0, 0, 0, ""⟩ [] [(0, 0)] 0 with
  | .error err => (st1, .error err)
  | .ok tokens =>
    match shunt tokens [] [] with
    | .error err => (st1, .error err)
    | .ok post =>
      match elemsOf st1.constants post st1.vmap 0 [] with
      | (elist, vars', fresh) =>
        ({ st1 with
            vmap := vars',
            program := foldPass [] (optPass [] (linkArgs elist [])) fresh }, .ok ())

/-- assign_expression on a nonempty expression text: reset the referenced
flag of every binding, then run the pipeline stages. -/
def assignNE (st : EvState) (e : String) : EvState × Except Perr Unit :=
  assignStages { st with vmap := resetRefs st.vmap } e

/-- assign_expression: an empty text is compiled as the constant 0 (the
source recurses; the duplicated flag reset is idempotent) and succeeds. -/
def assign (st : EvState) (e : String) : EvState × Except Perr Unit :=
  if e.length = 0 then assignNE st "0" else assignNE st e

/-- bind: registers a binding unless the name is already a bound variable
or a catalog operation (the source checks m_variables and function_map
only).  Returns none for failure, in which case nothing is applied. -/
def bind (st : EvState) (s : String) (k : Kind) : Option EvState :=
  if (lookupA st.vmap s).isNone && (functionArity s).isNone then
    some { st with vmap := st.vmap ++ [(s, ⟨k, false, CVAR⟩)] }
  else none

/-- Remove a binding from the variable map. -/
def eraseVar (l : List (String × VarInfo)) (s : String) : List (String × VarInfo) :=
  l.filter (fun p => p.1 ≠ s)

/-- unbind: rejects the empty name, fails when no binding exists, checks
the element_type tag, recompiles the constant 0 first when the binding is
referenced by the current program, then removes the binding.  Returns none
for failure. -/
def unbind (st : EvState) (s : String) : Option EvState :=
  if s.length = 0 then none
  else
    match lookupA st.vmap s with
    | some info =>
      if info.etype ≠ CVAR then none
      else
        let st' := if info.referenced then (assign st "0").1 else st
        some { st' with vmap := eraseVar st'.vmap s }
    | none => none

/-- The evaluator constructor: registers the constants pi and e (parsed by
atof from their decimal expansions) and installs the expression 0. -/
def initState : EvState :=
  let st0 : EvState :=
    { constants :=
        [("pi", parseLit "3.141592653589793238462643383"),
         ("e", parseLit "2.718281828459045235360287471")],
      vmap := [], program := [] }
  (assign st0 "0").1

/-! Auxiliary definitions used by the theorem statements below. -/

/-- The single slot the emitter produces for one element. -/
def slotOf : Nat × Elem → EmitSlot
  | (_, .econst v _) => .load .m64fp (.aconst v)
  | (_, .evar nm k) => .load k (.avar nm)
  | (_, .efunc f) => .codeBytes f.code

/-- The net FPU counter the emitter's loop computes for a whole list,
expressed as a fold (size_t wrap-around arithmetic). -/
def netDepth (l : EList) : Nat :=
  l.foldl
    (fun d p =>
      match p.2 with
      | .efunc f => (d + (2 ^ 64 - (f.num_args - 1))) % 2 ^ 64
      | _ => (d + 1) % 2 ^ 64)
    0

/-- Nine constant leaves: an element list whose running FPU depth reaches
9, one past the architectural limit. -/
def nineConsts : EList :=
  (List.range 9).map (fun i => (i, Elem.econst 1 "1"))

/-- Stage 1 applied to a bare candidate token (a character list) exactly
as assign_expression applies it: a space is appended and scanning starts
in state 0 at position 0 with an empty token list, bdarray holding one
zero pair, and no open function parentheses. -/
def scanW (vars consts : List String) (w : List Char) : Except Perr (List Token) :=
  scan vars consts (w ++ [' ']) 0 0 ⟨0, 0, 0, ""⟩ [] [(0, 0)] 0

/-- Number of dot characters in a candidate literal token. -/
def dotCount (w : List Char) : Nat :=
  w.count '.'

/-- Accumulate characters into the token being scanned. -/
def csFold (t : Token) (cs : List Char) : Token :=
  cs.foldl appendC t

/-- Stages 1 and 2 of assign_expression (tokenize, then shunting yard),
for stating parser-level facts. -/
def postfixOf (st : EvState) (e : String) : Except Perr (List Token) :=
  match scan (st.vmap.map (fun p => p.1)) (st.constants.map (fun p => p.1))
      (e.data ++ [' ']) 0 0 ⟨0, 0, 0, ""⟩ [] [(0, 0)] 0 with
  | .error err => .error err
  | .ok tokens => shunt tokens [] []

/-- An evaluator with a double variable named a. -/
def stA : EvState := (bind initState "a" Kind.m64fp).getD initState

/-- An evaluator with double variables named a and b. -/
def stAB : EvState := (bind stA "b" Kind.m64fp).getD stA

/-- An evaluator with a double variable named x. -/
def stX : EvState := (bind initState "x" Kind.m64fp).getD initState

/-- An evaluator in which x is bound and referenced by the installed
expression x*2. -/
def stW : EvState := (assign stX "x*2").1

/-- An evaluator with a 64-bit integer variable named z. -/
def stZ : EvState := (bind initState "z" Kind.m64int).getD initState

/-! Helper lemmas. -/

/-- The literal token 0 parses to the rational 0. -/
theorem parseLit_zero : parseLit "0" = 0 := by
  have h : parseLit "0" =
      ((digitsVal ['0'] : ℚ) + (digitsVal ([] : List Char) : ℚ) / (10 : ℚ) ^ (0 : ℕ)) := rfl
  have h1 : digitsVal ['0'] = 0 := rfl
  have h0 : digitsVal ([] : List Char) = 0 := rfl
  rw [h, h1, h0]; norm_num

/-- The literal token 1 parses to the rational 1. -/
theorem parseLit_one : parseLit "1" = 1 := by
  have h : parseLit "1" =
      ((digitsVal ['1'] : ℚ) + (digitsVal ([] : List Char) : ℚ) / (10 : ℚ) ^ (0 : ℕ)) := rfl
  have h1 : digitsVal ['1'] = 1 := rfl
  have h0 : digitsVal ([] : List Char) = 0 := rfl
  rw [h, h1, h0]; norm_num

/-- atof on a lone dot yields 0. -/
theorem parseLit_dot : parseLit "." = 0 := by
  have h : parseLit "." =
      ((digitsVal ([] : List Char) : ℚ) + (digitsVal ([] : List Char) : ℚ) / (10 : ℚ) ^ (0 : ℕ)) := rfl
  have h0 : digitsVal ([] : List Char) = 0 := rfl
  rw [h, h0]; norm_num

/-- Recompiling the expression 0 installs the single-constant program,
whatever the evaluator's prior state. -/
theorem assign0_program (st : EvState) :
    (assign st "0").1.program = [(0, Elem.econst (parseLit "0") "0")] := rfl

/-- A program consisting of the constant-0 leaf evaluates to 0. -/
theorem evaluate_prog0 (st : EvState) (env : String → ℚ)
    (h : st.program = [(0, Elem.econst (parseLit "0") "0")]) : evaluate st env = 0 := by
  unfold evaluate
  rw [h]
  simpa [evalNodes] using parseLit_zero

/-- Erasing a binding removes it from lookup. -/
theorem lookupA_eraseVar (l : List (String × VarInfo)) (s : String) :
    lookupA (eraseVar l s) s = none := by
  induction l with
  | nil => rfl
  | cons p t ih =>
    by_cases hp : p.1 = s
    · have h1 : eraseVar (p :: t) s = eraseVar t s := by
        simp [eraseVar, List.filter_cons, hp]
      rw [h1]; exact ih
    · have h1 : eraseVar (p :: t) s = p :: eraseVar t s := by
        simp [eraseVar, List.filter_cons, hp]
      have h2 : lookupA (p :: eraseVar t s) s = lookupA (eraseVar t s) s := by
        simp [lookupA, List.find?_cons_of_neg, hp]
      rw [h1, h2]; exact ih

/-- Looking up a name after the flag reset yields the same entry with the
referenced flag cleared. -/
theorem lookupA_resetRefs (l : List (String × VarInfo)) (s : String) :
    lookupA (resetRefs l) s =
      (lookupA l s).map (fun i => { i with referenced := false }) := by
  induction l with
  | nil => rfl
  | cons p t ih =>
    by_cases hp : p.1 = s
    · have h1 : resetRefs (p :: t) =
          (p.1, { p.2 with referenced := false }) :: resetRefs t := rfl
      rw [h1]
      simp [lookupA, List.find?_cons_of_pos, hp]
    · have h1 : resetRefs (p :: t) =
          (p.1, { p.2 with referenced := false }) :: resetRefs t := rfl
      rw [h1]
      have h2 : lookupA ((p.1, { p.2 with referenced := false }) :: resetRefs t) s =
          lookupA (resetRefs t) s := by
        simp [lookupA, List.find?_cons_of_neg, hp]
      have h3 : lookupA (p :: t) s = lookupA t s := by
        simp [lookupA, List.find?_cons_of_neg, hp]
      rw [h2, h3, ih]

/-- Every entry of the reset variable map has a cleared referenced flag. -/
theorem mem_resetRefs (l : List (String × VarInfo)) (p : String × VarInfo)
    (h : p ∈ resetRefs l) : p.2.referenced = false := by
  unfold resetRefs at h
  obtain ⟨q, _, rfl⟩ := List.mem_map.mp h
  rfl

/-- Association-list lookup succeeds exactly when an entry with the name
is present. -/
theorem lookupA_isSome_iff {α : Type} (l : List (String × α)) (s : String) :
    (lookupA l s).isSome = true ↔ ∃ a, (s, a) ∈ l := by
  unfold lookupA
  rcases hf : l.find? (fun p => p.1 = s) with - | p
  · rw [hf]
    constructor
    · intro h; exact absurd h (by simp)
    · rintro ⟨a, ha⟩
      have := List.find?_eq_none.mp hf (s, a) ha
      simp at this
  · rw [hf]
    have hmem := List.find?_some hf
    have hmem2 := List.mem_of_find?_eq_some hf
    simp only [decide_eq_true_eq] at hmem
    constructor
    · intro _; exact ⟨p.2, by rw [← hmem]; exact hmem2⟩
    · intro _; simp

/-- A name is a catalog operation name exactly when function_map lookup
succeeds. -/
theorem functionArity_isSome_iff (s : String) :
    (functionArity s).isSome = true ↔ ∃ p ∈ catalog, p.1 = s := by
  unfold functionArity catalogFind
  rcases hf : catalog.find? (fun p => p.1 = s) with - | p
  · rw [hf]
    constructor
    · intro h; exact absurd h (by simp)
    · rintro ⟨q, hq, hq1⟩
      have := List.find?_eq_none.mp hf q hq
      simp [hq1] at this
  · rw [hf]
    have hmem := List.find?_some hf
    have hmem2 := List.mem_of_find?_eq_some hf
    simp only [decide_eq_true_eq] at hmem
    constructor
    · intro _; exact ⟨p, hmem2, hmem⟩
    · intro _
      rcases p with ⟨a, n, sr, ot⟩
      simp

/-- A stage error leaves the pipeline's input state untouched. -/
theorem assignStages_error_state (st1 : EvState) (e : String) (st' : EvState) (msg : Perr)
    (h : assignStages st1 e = (st', .error msg)) : st' = st1 := by
  unfold assignStages at h
  split at h
  · exact (congrArg Prod.fst h).symm
  · split at h
    · exact (congrArg Prod.fst h).symm
    · split at h
      · have h2 := congrArg Prod.snd h
        simp at h2

/-- On any stage error, assign_expression on a nonempty text leaves the
state as mutated before the error (referenced flags reset) with the
compiled program untouched. -/
theorem assign_error_state (st : EvState) (e : String) (st' : EvState) (msg : Perr)
    (h : assignNE st e = (st', .error msg)) :
    st' = { st with vmap := resetRefs st.vmap } :=
  assignStages_error_state _ e st' msg h

/-! Claim theorems. -/

/-- C1: for every expression text on which assign_expression fails with a
parse or resolution error, the previously compiled program remains
installed and the installed code still returns the same value as before
the failing call. -/
theorem c1_failed_assign_is_atomic (st : EvState) (e : String) (st' : EvState) (msg : Perr)
    (h : assign st e = (st', .error msg)) :
    st'.program = st.program ∧ ∀ env, evaluate st' env = evaluate st env := by
  have hst' : st' = { st with vmap := resetRefs st.vmap } := by
    unfold assign at h
    split at h
    · have h2 : (assignNE st "0").2 = Except.ok () := rfl
      rw [h] at h2
      simp at h2
    · exact assign_error_state st e st' msg h
  constructor
  · rw [hst']
  · intro env
    unfold evaluate
    rw [hst']

/-- C1 witness: with x bound and x*2 installed, the failing text a^ leaves
the program and the evaluation result unchanged. -/
theorem c1_failed_assign_is_atomic_witness :
    (assign stW "a^").1.program = stW.program ∧
    evaluate (assign stW "a^").1 (fun _ => 7) = evaluate stW (fun _ => 7) := by
  have h := c1_failed_assign_is_atomic stW "a^" (assign stW "a^").1
    ("a is not a known constant or variable name", 1) rfl
  exact ⟨h.1, h.2 (fun _ => 7)⟩

/-- C2 counterexample: pi is a named constant of the evaluator, yet
binding a variable named pi succeeds, contradicting the claim that bind
fails on collision with a named constant. -/
theorem c2_bind_pi_succeeds :
    (lookupA initState.constants "pi").isSome = true ∧
    (bind initState "pi" Kind.m64fp).isSome = true :=
  ⟨rfl, rfl⟩

/-- C2 amended: bind fails exactly when the name collides with an
existing binding or with a catalog operation name; named constants are
not checked (so binding pi or e succeeds). -/
theorem c2_bind_failure_iff (st : EvState) (s : String) (k : Kind) :
    bind st s k = none ↔ (∃ info, (s, info) ∈ st.vmap) ∨ ∃ p ∈ catalog, p.1 = s := by
  have hv := lookupA_isSome_iff st.vmap s
  have hc := functionArity_isSome_iff s
  unfold bind
  rcases h1 : lookupA st.vmap s with - | a
  · rcases h2 : functionArity s with - | n
    · rw [h1] at hv
      rw [h2] at hc
      simp only [h1, h2, Option.isNone_none, Bool.and_self, if_true]
      constructor
      · intro hh; simp at hh
      · rintro (hh | hh)
        · exact absurd (hv.mpr hh) (by simp)
        · exact absurd (hc.mpr hh) (by simp)
    · rw [h2] at hc
      simp only [h1, h2, Option.isNone_some, Bool.and_false, Bool.false_and,
        Bool.false_eq_true, if_false, true_iff]
      exact Or.inr (hc.mp (by simp))
  · rw [h1] at hv
    simp only [h1, Option.isNone_some, Bool.false_and, Bool.false_eq_true, if_false, true_iff]
    exact Or.inl (hv.mp (by simp))

/-- C5: unbinding a referenced variable first recompiles the constant 0
and then removes the binding, after which evaluation returns 0; unbinding
a name with no binding fails. -/
theorem c5_unbind_referenced (st : EvState) (s : String) :
    (∀ info : VarInfo, s.length ≠ 0 → lookupA st.vmap s = some info →
      info.etype = CVAR → info.referenced = true →
      unbind st s =
        some { (assign st "0").1 with vmap := eraseVar (assign st "0").1.vmap s } ∧
      (assign st "0").1.program = [(0, Elem.econst (parseLit "0") "0")] ∧
      lookupA (eraseVar (assign st "0").1.vmap s) s = none ∧
      ∀ env,
        evaluate { (assign st "0").1 with vmap := eraseVar (assign st "0").1.vmap s } env = 0) ∧
    (lookupA st.vmap s = none → unbind st s = none) := by
  constructor
  · intro info hs hlook hety href
    have hu : unbind st s =
        some { (assign st "0").1 with vmap := eraseVar (assign st "0").1.vmap s } := by
      unfold unbind
      rw [if_neg hs, hlook]
      simp [hety, href]
    refine ⟨hu, assign0_program st, lookupA_eraseVar _ s, fun env => ?_⟩
    exact evaluate_prog0 _ env (assign0_program st)
  · intro hnone
    unfold unbind
    by_cases hs : s.length = 0
    · rw [if_pos hs]
    · rw [if_neg hs, hnone]

/-- C5 witness: unbinding the referenced x from the evaluator running x*2
installs the constant-0 program and evaluation returns 0. -/
theorem c5_unbind_referenced_witness :
    unbind stW "x" =
      some { (assign stW "0").1 with vmap := eraseVar (assign stW "0").1.vmap "x" } ∧
    evaluate { (assign stW "0").1 with vmap := eraseVar (assign stW "0").1.vmap "x" }
      (fun _ => 7) = 0 := by
  have h := (c5_unbind_referenced stW "x").1 ⟨Kind.m64fp, true, CVAR⟩
    (by decide) rfl rfl rfl
  exact ⟨h.1, h.2.2.2 (fun _ => 7)⟩

/-- C9: every assign_expression call resets all referenced flags before
parsing, so after a failed call no binding is marked referenced, and a
subsequent unbind of any remaining binding removes it without the
recompile-to-0 invalidation (the installed program is untouched). -/
theorem c9_failed_assign_clears_referenced (st : EvState) (e : String) (st' : EvState)
    (msg : Perr) (h : assign st e = (st', .error msg)) :
    (∀ p ∈ st'.vmap, p.2.referenced = false) ∧
    (∀ (s : String) (info : VarInfo), s.length ≠ 0 → lookupA st'.vmap s = some info →
      info.etype = CVAR →
      unbind st' s = some { st' with vmap := eraseVar st'.vmap s }) := by
  have hst' : st' = { st with vmap := resetRefs st.vmap } := by
    unfold assign at h
    split at h
    · have h2 : (assignNE st "0").2 = Except.ok () := rfl
      rw [h] at h2
      simp at h2
    · exact assign_error_state st e st' msg h
  constructor
  · intro p hp
    rw [hst'] at hp
    exact mem_resetRefs st.vmap p hp
  · intro s info hs hlook hety
    have href : info.referenced = false := by
      rw [hst'] at hlook
      rw [show ({ st with vmap := resetRefs st.vmap } : EvState).vmap = resetRefs st.vmap
          from rfl] at hlook
      rw [lookupA_resetRefs st.vmap s] at hlook
      rcases hl : lookupA st.vmap s with - | j
      · rw [hl] at hlook; simp at hlook
      · rw [hl] at hlook
        simp only [Option.map_some'] at hlook
        cases hlook
        rfl
    unfold unbind
    rw [if_neg hs, hlook]
    simp [hety, href]

/-- C9 witness: after the failing text ( on the evaluator running x*2,
the binding x is unreferenced and unbind removes it while keeping the
installed program. -/
theorem c9_failed_assign_clears_referenced_witness :
    unbind (assign stW "(").1 "x" =
      some { (assign stW "(").1 with vmap := eraseVar (assign stW "(").1.vmap "x" } :=
  (c9_failed_assign_clears_referenced stW "(" (assign stW "(").1
    ("Expected a \")\"", 1) rfl).2 "x" ⟨Kind.m64fp, false, CVAR⟩ (by decide) rfl rfl

/-- C10: assign_expression on the empty string succeeds and installs the
constant-0 program, so evaluation returns 0. -/
theorem c10_empty_expression_compiles_zero :
    (assign initState "").2 = Except.ok () ∧
    (assign initState "").1.program = [(0, Elem.econst (parseLit "0") "0")] ∧
    parseLit "0" = 0 ∧
    ∀ env, evaluate (assign initState "").1 env = 0 :=
  ⟨rfl, rfl, parseLit_zero, fun env => evaluate_prog0 _ env rfl⟩

/-- The emitter loop emits one slot per element and tracks the counter as
the corresponding fold, for every starting counter and accumulator. -/
theorem emitLoop_eq (l : EList) : ∀ (fpu : Nat) (acc : List EmitSlot),
    emitLoop l fpu acc =
      (acc ++ l.map slotOf,
       l.foldl
         (fun d p =>
           match p.2 with
           | .efunc f => (d + (2 ^ 64 - (f.num_args - 1))) % 2 ^ 64
           | _ => (d + 1) % 2 ^ 64)
         fpu) := by
  induction l with
  | nil => intro fpu acc; simp [emitLoop]
  | cons p t ih =>
    intro fpu acc
    rcases p with ⟨id, e⟩
    cases e with
    | econst v nm => rw [show emitLoop ((id, Elem.econst v nm) :: t) fpu acc =
        emitLoop t ((fpu + 1) % 2 ^ 64) (acc ++ [.load .m64fp (.aconst v)]) from rfl, ih]; simp [slotOf]
    | evar nm k => rw [show emitLoop ((id, Elem.evar nm k) :: t) fpu acc =
        emitLoop t ((fpu + 1) % 2 ^ 64) (acc ++ [.load k (.avar nm)]) from rfl, ih]; simp [slotOf]
    | efunc f => rw [show emitLoop ((id, Elem.efunc f) :: t) fpu acc =
        emitLoop t ((fpu + (2 ^ 64 - (f.num_args - 1))) % 2 ^ 64) (acc ++ [.codeBytes f.code])
        from rfl, ih]; simp [slotOf]

/-- C6 counterexample: on a list of nine constant leaves the claimed
emitter (which adds extra_fpu_slots and signals an internal error past
depth 8) rejects, while the actual emitter emits a load for every leaf
plus the return sequence and merely leaves its counter at 9: the overflow
check in the source is an empty branch whose throw is commented out. -/
theorem c6_no_overflow_error_on_nine_leaves :
    (compileEmitClaim nineConsts).isOk = false ∧
    compileEmit nineConsts = (nineConsts.map slotOf ++ [.epilogue], 9) ∧
    nineConsts.length = 9 :=
  ⟨rfl, rfl, rfl⟩

/-- C6 amended: the emitter computes the running FPU counter (+1 per
leaf, minus arity-1 per call, in wrapping size_t arithmetic, never adding
the extra_fpu_slots field) but never signals an error: for every element
list, including those whose depth exceeds the architectural maximum of 8,
it emits one code unit per element followed by the return sequence. -/
theorem c6_emitter_always_emits (l : EList) :
    compileEmit l = (l.map slotOf ++ [.epilogue], netDepth l) := by
  unfold compileEmit netDepth
  rw [emitLoop_eq l 0 []]
  simp

/-- C7: a unary operator token is pushed with the tightest (power)
priority exactly when the operator-stack top has power priority and with
the additive priority otherwise; consequently a^-b parses to the postfix
a b neg pow while -a^b parses to a b pow neg. -/
theorem c7_unary_minus_priority :
    (∀ (t : Token) (rest tstack post : List Token), t.type = UNARY →
      shunt (t :: rest) tstack post =
        shunt rest ({ t with priority := unaryPriority tstack } :: tstack) post) ∧
    (unaryPriority [] = INFIX_3 ∧
      ∀ (s : Token) (ts : List Token),
        unaryPriority (s :: ts) = if s.priority = INFIX_1 then INFIX_1 else INFIX_3) ∧
    (postfixOf stAB "a^-b").map (fun l => l.map (fun t => (t.type, t.content))) =
      .ok [(VARIABLE_NAME, "a"), (VARIABLE_NAME, "b"), (UNARY, "-"), (INFIX_1, "^")] ∧
    (postfixOf stAB "-a^b").map (fun l => l.map (fun t => (t.type, t.content))) =
      .ok [(VARIABLE_NAME, "a"), (VARIABLE_NAME, "b"), (INFIX_1, "^"), (UNARY, "-")] := by
  refine ⟨?_, ⟨rfl, fun s ts => rfl⟩, rfl, rfl⟩
  intro t rest tstack post ht
  rw [show shunt (t :: rest) tstack post =
      (if t.type = INFIX_4 || t.type = INFIX_3 || t.type = INFIX_2 then
        let (ts', post') := shuntPopOps t.type tstack post
        shunt rest (t :: ts') post'
      else if t.type = INFIX_1 || t.type = LEFT_PARENTHESIS || t.type = FUNCTION_NAME then
        shunt rest (t :: tstack) post
      else if t.type = UNARY then
        shunt rest ({ t with priority := unaryPriority tstack } :: tstack) post
      else if t.type = NUMERIC_LITERAL || t.type = CONSTANT_NAME || t.type = VARIABLE_NAME then
        shunt rest tstack (post ++ [t])
      else if t.type = RIGHT_PARENTHESIS then
        match popToLeftParen tstack post with
        | some (ts', post') => shunt rest ts' post'
        | none => .error ("internal error", 0)
      else if t.type = FUNCTION_RIGHT_PARENTHESIS then
        match popFunc tstack post with
        | some (ts', post') => shunt rest ts' post'
        | none => .error ("internal error", 0)
      else if t.type = COMMA then
        match popComma tstack post with
        | some (ts', post') => shunt rest ts' post'
        | none => .error ("internal error", 0)
      else if t.type = FUNCTION_LEFT_PARENTHESIS then
        shunt rest tstack post
      else .error ("internal error", 0)) from rfl]
  rw [ht]
  norm_num [UNARY, INFIX_1, INFIX_2, INFIX_3, INFIX_4, LEFT_PARENTHESIS, FUNCTION_NAME]

/-- C7 witness: the step equation applied to a concrete unary-minus token
over a stack whose top is a power operator. -/
theorem c7_unary_minus_priority_witness :
    shunt [mkToken UNARY 0 '-'] [mkToken INFIX_1 0 '^'] [] =
      shunt [] ({ mkToken UNARY 0 '-' with
        priority := unaryPriority [mkToken INFIX_1 0 '^'] } :: [mkToken INFIX_1 0 '^']) [] :=
  c7_unary_minus_priority.1 (mkToken UNARY 0 '-') [] [mkToken INFIX_1 0 '^'] [] rfl

/-- When the exponent constant passes the integrality and range checks
and has a specialization chain, pow_optimizer installs the chain and
erases the exponent leaf (the dead inversion append never fires since the
absolute value is nonnegative). -/
theorem powOptimizer_spec (v : ℚ) (nm fname : String) (na sr : Nat) (co : FCode)
    (ot : OptTag) (vr : Bool) (a0 a1 : Nat) (el : EList) (ops : List FpuOp)
    (hfind : findElem el a0 = some (.econst v nm))
    (hcond : cround v = v ∧ |v| ≤ 32)
    (hch : chainOps v = some ops) :
    powOptimizer ⟨fname, na, sr, co, ot, vr, [a0, a1]⟩ el =
      (⟨"", 1, 0, .chain ops, .noopt, false, [a1]⟩, eraseElem el a0) := by
  unfold powOptimizer
  dsimp only
  rw [hfind]
  dsimp only
  rw [if_pos hcond, hch]
  dsimp only
  rw [if_neg (not_lt.mpr (abs_nonneg v))]

/-- When the exponent constant has no specialization chain, pow_optimizer
returns the call and the element list unchanged. -/
theorem powOptimizer_generic (v : ℚ) (nm fname : String) (na sr : Nat) (co : FCode)
    (ot : OptTag) (vr : Bool) (a0 a1 : Nat) (el : EList)
    (hfind : findElem el a0 = some (.econst v nm))
    (hch : chainOps v = none) :
    powOptimizer ⟨fname, na, sr, co, ot, vr, [a0, a1]⟩ el =
      (⟨fname, na, sr, co, ot, vr, [a0, a1]⟩, el) := by
  unfold powOptimizer
  dsimp only
  rw [hfind]
  dsimp only
  by_cases hcond : cround v = v ∧ |v| ≤ 32
  · rw [if_pos hcond, hch]
  · rw [if_neg hcond]

/-- C3 counterexample: the exponent value -2 is integral with absolute
value at most 32 and is one of the claimed special-cased magnitudes, yet
pow_optimizer leaves the generic pow call and the exponent leaf in place:
the source compares the signed value against the nonnegative constants
only, and its negative-exponent inversion branch tests the absolute value
against zero and is dead. -/
theorem c3_negative_exponent_not_specialized :
    cround (-2 : ℚ) = -2 ∧ |(-2 : ℚ)| ≤ 32 ∧
    powOptimizer ⟨"pow", 2, 1, .template "pow", .powopt, false, [0, 1]⟩
        [(0, .econst (-2) "c"), (1, .evar "x" .m64fp)] =
      (⟨"pow", 2, 1, .template "pow", .powopt, false, [0, 1]⟩,
        [(0, .econst (-2) "c"), (1, .evar "x" .m64fp)]) := by
  refine ⟨by norm_num [cround], by norm_num, ?_⟩
  exact powOptimizer_generic (-2) "c" "pow" 2 1 (.template "pow") .powopt false 0 1 _
    rfl (by norm_num [chainOps])

/-- chainOps yields no chain outside the eleven nonnegative special
values. -/
theorem chainOps_eq_none_of_not_special (v : ℚ)
    (h : ¬(v = 0 ∨ v = 1 ∨ v = 2 ∨ v = 3 ∨ v = 4 ∨ v = 5 ∨ v = 6 ∨ v = 7 ∨ v = 8 ∨
      v = 16 ∨ v = 32)) : chainOps v = none := by
  push_neg at h
  obtain ⟨g0, g1, g2, g3, g4, g5, g6, g7, g8, g16, g32⟩ := h
  unfold chainOps
  rw [if_neg g0, if_neg g1, if_neg g2, if_neg g3, if_neg g4, if_neg g5, if_neg g6,
    if_neg g7, if_neg g8, if_neg g16, if_neg g32]

/-- C3 amended: when a pow call's exponent argument is a constant whose
value is one of the eleven nonnegative special values 0..8, 16, 32, the
optimizer replaces the call with a synthesized single-input fmul-chain
function that computes base to that power and drops the exponent leaf from
the element list; every other exponent value, including the negative
integers in range, leaves the generic pow call and the leaf in place (the
inversion append for negative exponents in the source is dead code). -/
theorem c3_pow_specialization (v : ℚ) (nm fname : String) (na sr : Nat) (co : FCode)
    (ot : OptTag) (vr : Bool) (a0 a1 : Nat) (el : EList)
    (hfind : findElem el a0 = some (.econst v nm)) :
    ((v = 0 ∨ v = 1 ∨ v = 2 ∨ v = 3 ∨ v = 4 ∨ v = 5 ∨ v = 6 ∨ v = 7 ∨ v = 8 ∨
        v = 16 ∨ v = 32) →
      chainOps v ≠ none ∧
      powOptimizer ⟨fname, na, sr, co, ot, vr, [a0, a1]⟩ el =
        (⟨"", 1, 0, .chain ((chainOps v).getD []), .noopt, false, [a1]⟩, eraseElem el a0) ∧
      ∀ (b : ℚ) (s : List ℚ),
        runFpu ((chainOps v).getD []) (b :: s) = b ^ v.num.toNat :: s) ∧
    (cround v = v → |v| ≤ 32 →
      ¬(v = 0 ∨ v = 1 ∨ v = 2 ∨ v = 3 ∨ v = 4 ∨ v = 5 ∨ v = 6 ∨ v = 7 ∨ v = 8 ∨
        v = 16 ∨ v = 32) →
      powOptimizer ⟨fname, na, sr, co, ot, vr, [a0, a1]⟩ el =
        (⟨fname, na, sr, co, ot, vr, [a0, a1]⟩, el)) := by
  constructor
  · intro hv
    rcases hv with rfl | rfl | rfl | rfl | rfl | rfl | rfl | rfl | rfl | rfl | rfl
    · have hch : chainOps 0 = some [.fstp_st0, .fld1] := by norm_num [chainOps]
      refine ⟨by rw [hch]; simp, ?_, ?_⟩
      · rw [hch]
        exact powOptimizer_spec 0 nm fname na sr co ot vr a0 a1 el _ hfind
          ⟨by norm_num [cround], by norm_num⟩ hch
      · intro b s
        rw [hch]
        simp only [Option.getD_some, runFpu, fpuStep]
        rw [show ((0 : ℚ)).num.toNat = 0 from rfl, pow_zero]
    · have hch : chainOps 1 = some [] := by norm_num [chainOps]
      refine ⟨by rw [hch]; simp, ?_, ?_⟩
      · rw [hch]
        exact powOptimizer_spec 1 nm fname na sr co ot vr a0 a1 el _ hfind
          ⟨by norm_num [cround], by norm_num⟩ hch
      · intro b s
        rw [hch]
        simp only [Option.getD_some, runFpu]
        rw [show ((1 : ℚ)).num.toNat = 1 from rfl, pow_one]
    · have hch : chainOps 2 = some [.fmul_st0] := by norm_num [chainOps]
      refine ⟨by rw [hch]; simp, ?_, ?_⟩
      · rw [hch]
        exact powOptimizer_spec 2 nm fname na sr co ot vr a0 a1 el _ hfind
          ⟨by norm_num [cround], by norm_num⟩ hch
      · intro b s
        rw [hch]
        simp only [runFpu, fpuStep, Option.getD_some]
        rw [show ((2 : ℚ)).num.toNat = 2 from rfl]
        simp only [List.cons.injEq]
        exact ⟨by ring, trivial⟩
    · have hch : chainOps 3 = some [.fld_st0, .fmul_st0, .fmulp] := by norm_num [chainOps]
      refine ⟨by rw [hch]; simp, ?_, ?_⟩
      · rw [hch]
        exact powOptimizer_spec 3 nm fname na sr co ot vr a0 a1 el _ hfind
          ⟨by norm_num [cround], by norm_num⟩ hch
      · intro b s
        rw [hch]
        simp only [runFpu, fpuStep, Option.getD_some]
        rw [show ((3 : ℚ)).num.toNat = 3 from rfl]
        simp only [List.cons.injEq]
        exact ⟨by ring, trivial⟩
    · have hch : chainOps 4 = some [.fmul_st0, .fmul_st0] := by norm_num [chainOps]
      refine ⟨by rw [hch]; simp, ?_, ?_⟩
      · rw [hch]
        exact powOptimizer_spec 4 nm fname na sr co ot vr a0 a1 el _ hfind
          ⟨by norm_num [cround], by norm_num⟩ hch
      · intro b s
        rw [hch]
        simp only [runFpu, fpuStep, Option.getD_some]
        rw [show ((4 : ℚ)).num.toNat = 4 from rfl]
        simp only [List.cons.injEq]
        exact ⟨by ring, trivial⟩
    · have hch : chainOps 5 = some [.fld_st0, .fmul_st0, .fmul_st0, .fmulp] := by
        norm_num [chainOps]
      refine ⟨by rw [hch]; simp, ?_, ?_⟩
      · rw [hch]
        exact powOptimizer_spec 5 nm fname na sr co ot vr a0 a1 el _ hfind
          ⟨by norm_num [cround], by norm_num⟩ hch
      · intro b s
        rw [hch]
        simp only [runFpu, fpuStep, Option.getD_some]
        rw [show ((5 : ℚ)).num.toNat = 5 from rfl]
        simp only [List.cons.injEq]
        exact ⟨by ring, trivial⟩
    · have hch : chainOps 6 =
          some [.fld_st0, .fmul_st0, .fmul_st0, .fmul_st0_st1, .fmulp] := by
        norm_num [chainOps]
      refine ⟨by rw [hch]; simp, ?_, ?_⟩
      · rw [hch]
        exact powOptimizer_spec 6 nm fname na sr co ot vr a0 a1 el _ hfind
          ⟨by norm_num [cround], by norm_num⟩ hch
      · intro b s
        rw [hch]
        simp only [runFpu, fpuStep, Option.getD_some]
        rw [show ((6 : ℚ)).num.toNat = 6 from rfl]
        simp only [List.cons.injEq]
        exact ⟨by ring, trivial⟩
    · have hch : chainOps 7 =
          some [.fld_st0, .fmul_st0, .fmul_st0, .fmul_st0_st1, .fmul_st0_st1, .fmulp] := by
        norm_num [chainOps]
      refine ⟨by rw [hch]; simp, ?_, ?_⟩
      · rw [hch]
        exact powOptimizer_spec 7 nm fname na sr co ot vr a0 a1 el _ hfind
          ⟨by norm_num [cround], by norm_num⟩ hch
      · intro b s
        rw [hch]
        simp only [runFpu, fpuStep, Option.getD_some]
        rw [show ((7 : ℚ)).num.toNat = 7 from rfl]
        simp only [List.cons.injEq]
        exact ⟨by ring, trivial⟩
    · have hch : chainOps 8 = some [.fmul_st0, .fmul_st0, .fmul_st0] := by
        norm_num [chainOps]
      refine ⟨by rw [hch]; simp, ?_, ?_⟩
      · rw [hch]
        exact powOptimizer_spec 8 nm fname na sr co ot vr a0 a1 el _ hfind
          ⟨by norm_num [cround], by norm_num⟩ hch
      · intro b s
        rw [hch]
        simp only [runFpu, fpuStep, Option.getD_some]
        rw [show ((8 : ℚ)).num.toNat = 8 from rfl]
        simp only [List.cons.injEq]
        exact ⟨by ring, trivial⟩
    · have hch : chainOps 16 = some [.fmul_st0, .fmul_st0, .fmul_st0, .fmul_st0] := by
        norm_num [chainOps]
      refine ⟨by rw [hch]; simp, ?_, ?_⟩
      · rw [hch]
        exact powOptimizer_spec 16 nm fname na sr co ot vr a0 a1 el _ hfind
          ⟨by norm_num [cround], by norm_num⟩ hch
      · intro b s
        rw [hch]
        simp only [runFpu, fpuStep, Option.getD_some]
        rw [show ((16 : ℚ)).num.toNat = 16 from rfl]
        simp only [List.cons.injEq]
        exact ⟨by ring, trivial⟩
    · have hch : chainOps 32 =
          some [.fmul_st0, .fmul_st0, .fmul_st0, .fmul_st0, .fmul_st0] := by
        norm_num [chainOps]
      refine ⟨by rw [hch]; simp, ?_, ?_⟩
      · rw [hch]
        exact powOptimizer_spec 32 nm fname na sr co ot vr a0 a1 el _ hfind
          ⟨by norm_num [cround], by norm_num⟩ hch
      · intro b s
        rw [hch]
        simp only [runFpu, fpuStep, Option.getD_some]
        rw [show ((32 : ℚ)).num.toNat = 32 from rfl]
        simp only [List.cons.injEq]
        exact ⟨by ring, trivial⟩
  · intro _ _ hnot
    exact powOptimizer_generic v nm fname na sr co ot vr a0 a1 el hfind
      (chainOps_eq_none_of_not_special v hnot)

/-- C3 witness: the specialization applied to the exponent 3 replaces the
pow call with the three-instruction chain, erases the exponent leaf, and
the chain cubes the base. -/
theorem c3_pow_specialization_witness :
    powOptimizer ⟨"pow", 2, 1, .template "pow", .powopt, false, [0, 1]⟩
        [(0, .econst 3 "3"), (1, .evar "x" .m64fp)] =
      (⟨"", 1, 0, .chain ((chainOps 3).getD []), .noopt, false, [1]⟩,
        [(1, .evar "x" .m64fp)]) ∧
    runFpu ((chainOps 3).getD []) [2] = [(2 : ℚ) ^ (3 : ℚ).num.toNat] := by
  have h := (c3_pow_specialization 3 "3" "pow" 2 1 (.template "pow") .powopt false 0 1
      [(0, .econst 3 "3"), (1, .evar "x" .m64fp)] rfl).1 (by norm_num)
  refine ⟨?_, h.2.2 2 []⟩
  rw [h.2.1]
  rfl

set_option maxHeartbeats 1000000 in
/-- C4: the claim fails for 64-bit integer operands and the code is at
fault.  With an int64 variable z bound and the expression 1+z compiled,
the asmd rewriter folds z (its switch has no M64INT case, so the
synthesized function carries no arithmetic instruction, only the address
load), and evaluation returns 1 instead of the 6 the add template computes
on the same operands: the folded program silently drops the operand. -/
theorem c4_int64_memory_fold_drops_operand :
    asmdInstr Kind.m64int 0x00 = none ∧
    (assign stZ "1+z").2 = Except.ok () ∧
    (assign stZ "1+z").1.program =
      [(0, Elem.econst (parseLit "1") "1"),
       (2, Elem.efunc ⟨"", 1, 0, .fold none (.avar "z"), .noopt, true, [0]⟩)] ∧
    evaluate (assign stZ "1+z").1 (fun _ => 5) = parseLit "1" ∧
    parseLit "1" = 1 ∧
    catalogSem "add" [5, 1] = 6 := by
  refine ⟨rfl, rfl, rfl, rfl, parseLit_one, ?_⟩
  rw [show catalogSem "add" [5, 1] = (1 : ℚ) + 5 from rfl]
  norm_num

/-- A digit character is none of the punctuation characters the literal
states dispatch on. -/
theorem digit_facts (c : Char) (hc : isNumericC c = true) :
    ¬(c = '-') ∧ ¬(c = '+') ∧ ¬(c = ')') ∧ ¬(c = ' ') ∧ ¬(c = '.') :=
  ⟨fun h => absurd (h ▸ hc) (by decide), fun h => absurd (h ▸ hc) (by decide),
   fun h => absurd (h ▸ hc) (by decide), fun h => absurd (h ▸ hc) (by decide),
   fun h => absurd (h ▸ hc) (by decide)⟩

/-- A digit read in literal state 1 or 2 is appended to the token and the
state is kept. -/
theorem scan_step_digit (vars consts : List String) (c : Char) (cs : List Char) (i st : Nat)
    (temp : Token) (tokens : List Token) (bd : List (Int × Int)) (fp : Int)
    (hc : isNumericC c = true) (hst : st = 1 ∨ st = 2) :
    scan vars consts (c :: cs) i st temp tokens bd fp =
      scan vars consts cs (i + 1) st (appendC temp c) tokens bd fp := by
  obtain ⟨h1, h2, h3, h4, h5⟩ := digit_facts c hc
  rcases hst with rfl | rfl <;>
    simp [scan, hc, h1, h2, h3, h4, h5]

/-- A dot read in literal state 1 moves to state 2. -/
theorem scan_step_dot1 (vars consts : List String) (cs : List Char) (i : Nat)
    (temp : Token) (tokens : List Token) (bd : List (Int × Int)) (fp : Int) :
    scan vars consts ('.' :: cs) i 1 temp tokens bd fp =
      scan vars consts cs (i + 1) 2 (appendC temp '.') tokens bd fp := by
  simp [scan]

/-- A second dot in a literal (state 2) is rejected. -/
theorem scan_step_dot2 (vars consts : List String) (cs : List Char) (i : Nat)
    (temp : Token) (tokens : List Token) (bd : List (Int × Int)) (fp : Int) :
    scan vars consts ('.' :: cs) i 2 temp tokens bd fp =
      .error (notExpected '.', i) := by
  simp [scan, show isNumericC '.' = false from rfl, show isOperatorC '.' = false from rfl]

/-- The trailing space ends the literal in state 1 or 2: the token is
pushed and the final checks accept. -/
theorem scan_end_lit (vars consts : List String) (i st : Nat) (temp : Token)
    (tokens : List Token) (hst : st = 1 ∨ st = 2) :
    scan vars consts [' '] i st temp tokens [(0, 0)] 0 = .ok (tokens ++ [temp]) := by
  rcases hst with rfl | rfl <;> rfl

/-- Accumulating characters into a token only extends its content. -/
theorem csFold_token (cs : List Char) : ∀ t : Token,
    csFold t cs = ⟨t.type, t.priority, t.position, ⟨t.content.data ++ cs⟩⟩ := by
  induction cs with
  | nil => intro t; cases t; simp [csFold]
  | cons c cs ih =>
    intro t
    rw [show csFold t (c :: cs) = csFold (appendC t c) cs from rfl, ih]
    cases t
    simp [appendC, String.push]

/-- Digit-only strings have no dots. -/
theorem all_digits_of_no_dot (cs : List Char)
    (hall : ∀ c ∈ cs, isNumericC c = true ∨ c = '.')
    (hz : dotCount cs = 0) : ∀ c ∈ cs, isNumericC c = true := by
  intro c hcm
  rcases hall c hcm with h | rfl
  · exact h
  · exact absurd hcm (List.count_eq_zero.mp hz)

/-- Counting dots past a non-dot head. -/
theorem dotCount_cons_ne (c : Char) (cs : List Char) (hne : ¬c = '.') :
    dotCount (c :: cs) = dotCount cs := by
  unfold dotCount
  simp [List.count_cons, hne]

/-- Counting dots past a dot head. -/
theorem dotCount_cons_dot (cs : List Char) :
    dotCount ('.' :: cs) = dotCount cs + 1 := by
  unfold dotCount
  simp [List.count_cons]

/-- From literal state 2 (a dot already seen), a run of digits followed by
the trailing space is accepted with the accumulated token. -/
theorem scan_state2_digits (vars consts : List String) (cs : List Char)
    (hall : ∀ c ∈ cs, isNumericC c = true) : ∀ (i : Nat) (temp : Token) (tokens : List Token),
    scan vars consts (cs ++ [' ']) i 2 temp tokens [(0, 0)] 0 =
      .ok (tokens ++ [csFold temp cs]) := by
  induction cs with
  | nil => intro i temp tokens; exact scan_end_lit vars consts i 2 temp tokens (Or.inr rfl)
  | cons c cs ih =>
    intro i temp tokens
    have hc := hall c (List.mem_cons_self c cs)
    have hcs : ∀ x ∈ cs, isNumericC x = true := fun x hx => hall x (List.mem_cons_of_mem c hx)
    rw [show (c :: cs) ++ [' '] = c :: (cs ++ [' ']) from rfl,
      scan_step_digit vars consts c (cs ++ [' ']) i 2 temp tokens [(0, 0)] 0 hc (Or.inr rfl),
      ih hcs (i + 1) (appendC temp c) tokens]
    rfl

/-- From literal state 2, any remaining dot is rejected. -/
theorem scan_state2_seconddot (vars consts : List String) (cs : List Char)
    (hall : ∀ c ∈ cs, isNumericC c = true ∨ c = '.') (hdot : 1 ≤ dotCount cs) :
    ∀ (i : Nat) (temp : Token) (tokens : List Token),
    (scan vars consts (cs ++ [' ']) i 2 temp tokens [(0, 0)] 0).isOk = false := by
  induction cs with
  | nil => simp [dotCount] at hdot
  | cons c cs ih =>
    intro i temp tokens
    rcases hall c (List.mem_cons_self c cs) with hc | rfl
    · have hcs : ∀ x ∈ cs, isNumericC x = true ∨ x = '.' :=
        fun x hx => hall x (List.mem_cons_of_mem c hx)
      have hdc : 1 ≤ dotCount cs := by
        have hne := (digit_facts c hc).2.2.2.2
        rwa [dotCount_cons_ne c cs hne] at hdot
      rw [show (c :: cs) ++ [' '] = c :: (cs ++ [' ']) from rfl,
        scan_step_digit vars consts c (cs ++ [' ']) i 2 temp tokens [(0, 0)] 0 hc (Or.inr rfl)]
      exact ih hcs hdc (i + 1) (appendC temp c) tokens
    · rw [show ('.' :: cs) ++ [' '] = '.' :: (cs ++ [' ']) from rfl,
        scan_step_dot2 vars consts (cs ++ [' ']) i temp tokens [(0, 0)] 0]
      rfl

/-- From literal state 1 (no dot seen yet): at most one dot accepts with
the accumulated token, two or more dots are rejected. -/
theorem scan_state1_lit (vars consts : List String) (cs : List Char)
    (hall : ∀ c ∈ cs, isNumericC c = true ∨ c = '.') :
    ∀ (i : Nat) (temp : Token) (tokens : List Token),
    (dotCount cs ≤ 1 →
      scan vars consts (cs ++ [' ']) i 1 temp tokens [(0, 0)] 0 =
        .ok (tokens ++ [csFold temp cs])) ∧
    (2 ≤ dotCount cs →
      (scan vars consts (cs ++ [' ']) i 1 temp tokens [(0, 0)] 0).isOk = false) := by
  induction cs with
  | nil =>
    intro i temp tokens
    refine ⟨fun _ => scan_end_lit vars consts i 1 temp tokens (Or.inl rfl), fun h => ?_⟩
    simp [dotCount] at h
  | cons c cs ih =>
    intro i temp tokens
    have hcs : ∀ x ∈ cs, isNumericC x = true ∨ x = '.' :=
      fun x hx => hall x (List.mem_cons_of_mem c hx)
    rcases hall c (List.mem_cons_self c cs) with hc | rfl
    · have hne := (digit_facts c hc).2.2.2.2
      have hdceq : dotCount (c :: cs) = dotCount cs := dotCount_cons_ne c cs hne
      rw [show (c :: cs) ++ [' '] = c :: (cs ++ [' ']) from rfl,
        scan_step_digit vars consts c (cs ++ [' ']) i 1 temp tokens [(0, 0)] 0 hc (Or.inl rfl),
        hdceq]
      refine ⟨fun hle => ?_, fun hge => (ih hcs (i + 1) (appendC temp c) tokens).2 hge⟩
      rw [(ih hcs (i + 1) (appendC temp c) tokens).1 hle]
      rfl
    · have hdceq : dotCount ('.' :: cs) = dotCount cs + 1 := dotCount_cons_dot cs
      rw [show ('.' :: cs) ++ [' '] = '.' :: (cs ++ [' ']) from rfl,
        scan_step_dot1 vars consts (cs ++ [' ']) i temp tokens [(0, 0)] 0, hdceq]
      constructor
      · intro hle
        have hz : dotCount cs = 0 := by omega
        rw [scan_state2_digits vars consts cs (all_digits_of_no_dot cs hcs hz)
          (i + 1) (appendC temp '.') tokens]
        rfl
      · intro hge
        exact scan_state2_seconddot vars consts cs hcs (by omega)
          (i + 1) (appendC temp '.') tokens

/-- The first character of a candidate literal: a digit enters state 1, a
dot enters state 2, each priming the token. -/
theorem scan_start_digit (vars consts : List String) (c : Char) (cs : List Char)
    (hc : isNumericC c = true) :
    scan vars consts (c :: cs) 0 0 ⟨0, 0, 0, ""⟩ [] [(0, 0)] 0 =
      scan vars consts cs 1 1 (mkToken NUMERIC_LITERAL 0 c) [] [(0, 0)] 0 := by
  obtain ⟨h1, h2, h3, h4, h5⟩ := digit_facts c hc
  simp [scan, hc, h1, h2, h3, h4, h5]

/-- A leading dot enters state 2 directly. -/
theorem scan_start_dot (vars consts : List String) (cs : List Char) :
    scan vars consts ('.' :: cs) 0 0 ⟨0, 0, 0, ""⟩ [] [(0, 0)] 0 =
      scan vars consts cs 1 2 (mkToken NUMERIC_LITERAL 0 '.') [] [(0, 0)] 0 := by
  simp [scan, show isNumericC '.' = false from rfl]

/-- C8 amended: a candidate token consisting of digits and dots is
accepted as a numeric literal exactly when it is nonempty and has at most
one dot, i.e. it matches digits (dot digits?)? or dot digits? — so a lone
dot is also accepted (as the atof value 0), contrary to the claimed
grammar which requires a digit around the dot. -/
theorem c8_literal_lexing (vars consts : List String) (w : List Char) (hne : w ≠ [])
    (hall : ∀ c ∈ w, isNumericC c = true ∨ c = '.') :
    ((scanW vars consts w).isOk = true ↔ dotCount w ≤ 1) ∧
    (dotCount w ≤ 1 →
      scanW vars consts w = .ok [⟨NUMERIC_LITERAL, NUMERIC_LITERAL, 0, ⟨w⟩⟩]) := by
  rcases w with - | ⟨c, cs⟩
  · exact absurd rfl hne
  have hcs : ∀ x ∈ cs, isNumericC x = true ∨ x = '.' :=
    fun x hx => hall x (List.mem_cons_of_mem c hx)
  have hmk : ∀ ty : Nat, csFold (mkToken ty 0 c) cs = ⟨ty, ty, 0, ⟨c :: cs⟩⟩ := by
    intro ty
    rw [csFold_token cs (mkToken ty 0 c)]
    rfl
  have hsecond :
      (dotCount (c :: cs) ≤ 1 →
        scanW vars consts (c :: cs) =
          .ok [⟨NUMERIC_LITERAL, NUMERIC_LITERAL, 0, ⟨c :: cs⟩⟩]) ∧
      (2 ≤ dotCount (c :: cs) → (scanW vars consts (c :: cs)).isOk = false) := by
    unfold scanW
    rcases hall c (List.mem_cons_self c cs) with hc | rfl
    · have hne' := (digit_facts c hc).2.2.2.2
      have hdceq : dotCount (c :: cs) = dotCount cs := dotCount_cons_ne c cs hne'
      rw [show (c :: cs) ++ [' '] = c :: (cs ++ [' ']) from rfl,
        scan_start_digit vars consts c (cs ++ [' ']) hc, hdceq]
      have hmain := scan_state1_lit vars consts cs hcs 1 (mkToken NUMERIC_LITERAL 0 c) []
      refine ⟨fun hle => ?_, hmain.2⟩
      rw [hmain.1 hle, hmk NUMERIC_LITERAL]
      rfl
    · have hdceq : dotCount ('.' :: cs) = dotCount cs + 1 := dotCount_cons_dot cs
      rw [show ('.' :: cs) ++ [' '] = '.' :: (cs ++ [' ']) from rfl,
        scan_start_dot vars consts (cs ++ [' ']), hdceq]
      constructor
      · intro hle
        have hz : dotCount cs = 0 := by omega
        rw [scan_state2_digits vars consts cs (all_digits_of_no_dot cs hcs hz) 1
          (mkToken NUMERIC_LITERAL 0 '.') [], hmk NUMERIC_LITERAL]
        rfl
      · intro hge
        exact scan_state2_seconddot vars consts cs hcs (by omega) 1
          (mkToken NUMERIC_LITERAL 0 '.') []
  refine ⟨⟨fun hok => ?_, fun hle => ?_⟩, hsecond.1⟩
  · by_contra hgt
    rw [hsecond.2 (by omega)] at hok
    simp at hok
  · rw [hsecond.1 hle]
    rfl

/-- C8 witness: the characterization applied to the token 1.5, which has
one dot and is accepted. -/
theorem c8_literal_lexing_witness :
    (scanW [] [] ['1', '.', '5']).isOk = true ∧
    scanW [] [] ['1', '.', '5'] =
      .ok [⟨NUMERIC_LITERAL, NUMERIC_LITERAL, 0, ⟨['1', '.', '5']⟩⟩] := by
  have h := c8_literal_lexing [] [] ['1', '.', '5'] (by decide) (by decide)
  exact ⟨h.1.mpr (by decide), h.2 (by decide)⟩

/-- C8 counterexample: the input consisting of the lone dot is accepted
by assign_expression as a numeric literal with atof value 0, not rejected
with a parse error. -/
theorem c8_lone_dot_accepted :
    (assign initState ".").2 = Except.ok () ∧
    (assign initState ".").1.program = [(0, Elem.econst (parseLit ".") ".")] ∧
    parseLit "." = 0 ∧
    ∀ env, evaluate (assign initState ".").1 env = 0 := by
  refine ⟨rfl, rfl, parseLit_dot, fun env => ?_⟩
  unfold evaluate
  rw [show (assign initState ".").1.program = [(0, Elem.econst (parseLit ".") ".")] from rfl]
  simpa [evalNodes] using parseLit_dot

end Mexce
